import Mathlib

/-!
Verification of the financial core of the invoice management service
(`app.py`): the totals engine `calculate_invoice_total`, the payment action
`pay_invoice`, invoice creation `create_invoice`, and the reporting
aggregator `reports_summary`.

Modelling conventions (shallow embedding):
  * Python numbers are modelled as exact rationals `ℚ`.
  * `float(x)` coercion is an `Option`-valued function; `none` means the
    coercion raises `ValueError`/`TypeError` in the source.
  * Python's `round(x, 2)` is modelled as exact round-half-to-even at two
    decimal places (CPython's rounding rule, read on exact values).
  * A Python dict field that may be absent is an `Option` field; `d.get(k, v)`
    is `Option.getD`.
  * Route handlers that return an HTTP error without mutating state are
    modelled as `Except.error`.
-/

/-! ### Definitions -/

/-- Round-half-to-even of a rational to an integer: the rule of Python's
built-in `round`. -/
def rhe (q : ℚ) : ℤ :=
  if q - ⌊q⌋ < 1/2 then ⌊q⌋
  else if 1/2 < q - ⌊q⌋ then ⌊q⌋ + 1
  else if ⌊q⌋ % 2 = 0 then ⌊q⌋ else ⌊q⌋ + 1

/-- Python's `round(x, 2)`: round-half-to-even at two decimal places. -/
def round2 (q : ℚ) : ℚ := ((rhe (q * 100) : ℤ) : ℚ) / 100

/-- A rational that is a whole number of hundredths, i.e. a stored 2-decimal
currency amount. -/
def Mult100 (q : ℚ) : Prop := ∃ k : ℤ, q = (k : ℚ) / 100

/-- A Python value, as far as the financial core inspects one: `num q` is any
value on which `float()` succeeds with exact result `q` (ints, floats, numeric
strings, booleans); `str s` is a non-numeric string (other non-numeric hashable
objects used as dictionary keys are also encoded by a `str`); `pynone` is
Python's `None`. -/
inductive PyVal where
  | num (q : ℚ)
  | str (s : String)
  | pynone
deriving DecidableEq

/-- Coercion `float(v)`: `some` result, or `none` when the coercion raises
`ValueError`/`TypeError`. -/
def pyFloat : PyVal → Option ℚ
  | .num q => some q
  | .str _ => Option.none
  | .pynone => Option.none

/-- Python truthiness of the modelled values (`0`, `""` and `None` are falsy). -/
def pyTruthy : PyVal → Bool
  | .num q => decide (q ≠ 0)
  | .str s => decide (s ≠ "")
  | .pynone => false

/-- Field read `float(d.get(key, 0))` for an optional dictionary field. -/
def fieldFloat (v : Option PyVal) : Option ℚ := pyFloat (v.getD (.num 0))

/-- A line-item dictionary, restricted to the three fields the totals engine
reads (`item.get("quantity", 0)`, `item.get("unit_price", 0)`,
`item.get("tax", 0)`); a missing field is `Option.none`. -/
structure LineItem where
  quantity : Option PyVal := Option.none
  unit_price : Option PyVal := Option.none
  tax : Option PyVal := Option.none
deriving DecidableEq

/-- The numeric coercions of one item's three fields, in source order;
`none` when any of the three `float()` calls raises — the loop body then hits
`except (ValueError, TypeError): continue` and the item is skipped. -/
def itemVals? (it : LineItem) : Option (ℚ × ℚ × ℚ) :=
  match fieldFloat it.quantity, fieldFloat it.unit_price, fieldFloat it.tax with
  | some q, some p, some t => some (q, p, t)
  | _, _, _ => Option.none

/-- One item's `(item_subtotal, item_tax)` contribution:
`item_subtotal = quantity * unit_price`,
`item_tax = item_subtotal * tax_rate / 100`. -/
def itemContribution (it : LineItem) : Option (ℚ × ℚ) :=
  (itemVals? it).map fun v => (v.1 * v.2.1, v.1 * v.2.1 * v.2.2 / 100)

/-- Function `calculate_invoice_total(items, gst_rate)` (app.py, lines 120-142).
An empty (or non-list, excluded here by typing) `items` returns `0` before
`float(gst_rate)` is ever evaluated; otherwise the per-item loop accumulates
`subtotal` and `total_tax`, skipping items whose field coercion raises, and
finally `float(gst_rate)` is applied — uncaught, hence the `Option` result —
and `round(subtotal + total_tax + gst_amount, 2)` is returned. -/
def calculate_invoice_total (items : List LineItem) (gst_rate : PyVal) : Option ℚ :=
  if items.isEmpty then some 0
  else
    let contribs := items.filterMap itemContribution
    let subtotal := (contribs.map Prod.fst).sum
    let total_tax := (contribs.map Prod.snd).sum
    (pyFloat gst_rate).map fun g => round2 (subtotal + total_tax + subtotal * g / 100)

/-- Spec-side closed form (§4.1): `subtotal = Σ quantity * unit_price`. -/
def specSubtotal (vals : List (ℚ × ℚ × ℚ)) : ℚ := (vals.map fun v => v.1 * v.2.1).sum

/-- Spec-side closed form (§4.1):
`item_tax_total = Σ quantity * unit_price * tax_rate / 100`. -/
def specItemTax (vals : List (ℚ × ℚ × ℚ)) : ℚ :=
  (vals.map fun v => v.1 * v.2.1 * v.2.2 / 100).sum

/-- The sample line item of concrete scenario 1 in §8 of the spec:
`{desc:"A", quantity:2, unit_price:100, tax:10}`. -/
def sampleItem : LineItem :=
  { quantity := some (.num 2), unit_price := some (.num 100), tax := some (.num 10) }

/-- The payment-status rule of `pay_invoice` (app.py, lines 786-791):
`paid` when the new amount reaches the total, else `partial` when positive,
else `unpaid`. -/
def payStatus (new_paid total : ℚ) : String :=
  if total ≤ new_paid then "paid" else if 0 < new_paid then "partial" else "unpaid"

/-- How many of the three spec thresholds (§4.1) hold at `(amount_paid, total)`:
`amount_paid ≥ total`, `0 < amount_paid < total`, `amount_paid = 0`. -/
def thresholdCount (p t : ℚ) : ℕ :=
  (if t ≤ p then 1 else 0) + (if 0 < p ∧ p < t then 1 else 0) + (if p = 0 then 1 else 0)

/-- Rank of a status in the order `unpaid < partial < paid` (any unrecognized
string ranks with `unpaid`). -/
def statusRank (s : String) : ℕ :=
  if s = "paid" then 2 else if s = "partial" then 1 else 0

/-- A stored invoice document, restricted to the fields the financial core
reads: `total`, `amount_paid`, `status`, the referenced client id
(`inv.get("for", {}).get("id")`, `none` when the `for` sub-document or its
`id` is absent) and the `date` string (`none` when absent; the source
defaults it to `""`).  Identification, currency and timestamp fields are
storage/presentation concerns and are not modelled. -/
structure InvRecord where
  total : Option PyVal := Option.none
  amount_paid : Option PyVal := Option.none
  status : Option String := Option.none
  for_id : Option PyVal := Option.none
  date : Option String := Option.none
deriving DecidableEq

/-- Handler `pay_invoice` (app.py, lines 751-814), the part after the invoice has been
loaded: coerce the requested amount (`float(request.json.get("amount", 0))`;
failure is a 400 error), reject a non-positive amount (400 error), then read
`float(invoice.get("amount_paid", 0))` and `float(invoice.get("total", 0))`
(an uncaught coercion error becomes the route's 500 error and nothing is
stored), store `round(new_paid, 2)` and the status recomputed from the
unrounded `new_paid`.  The error branches perform no state mutation. -/
def pay_invoice (inv : InvRecord) (amount : PyVal) : Except String InvRecord :=
  match pyFloat amount with
  | Option.none => .error "Invalid payment amount"
  | some payment =>
    if payment ≤ 0 then .error "Payment amount must be positive"
    else
      match fieldFloat inv.amount_paid, fieldFloat inv.total with
      | some current_paid, some total =>
        .ok { inv with
          amount_paid := some (.num (round2 (current_paid + payment)))
          status := some (payStatus (current_paid + payment) total) }
      | _, _ => .error "Failed to record payment"

/-- The stored `amount_paid` of an invoice record, as the aggregator reads it. -/
def paidOf (inv : InvRecord) : ℚ := (fieldFloat inv.amount_paid).getD 0

/-- The stored `status` of an invoice record (`inv.get("status", "unpaid")`). -/
def statusOf (inv : InvRecord) : String := inv.status.getD "unpaid"

/-- Apply a sequence of payment requests; `some trace` when every payment is
accepted (the trace lists the successive stored invoice states), `none` as
soon as one is rejected. -/
def payTrace (inv : InvRecord) : List ℚ → Option (List InvRecord)
  | [] => some []
  | a :: as =>
    match pay_invoice inv (.num a) with
    | .ok next => (payTrace next as).map fun tr => next :: tr
    | .error _ => Option.none

/-- A create-invoice request body, restricted to the fields `create_invoice`
reads or stores: the items list, the optional `gst_rate`, the caller-supplied
`status` / `amount_paid` / `total` (which the handler overwrites), and two
pass-through fields. -/
structure CreateReq where
  items : List LineItem := []
  gst_rate : Option PyVal := Option.none
  status : Option String := Option.none
  amount_paid : Option PyVal := Option.none
  total : Option PyVal := Option.none
  for_id : Option PyVal := Option.none
  date : Option String := Option.none

/-- Handler `create_invoice` (app.py, lines 618-660): reject an empty items list
(400), coerce `float(invoice_data.get("gst_rate", 18))` (an uncaught failure
becomes the route's 500 error, nothing stored), then store the invoice with
`total` from the totals engine and hard-coded `status = "unpaid"`,
`amount_paid = 0.0`, overwriting any caller-supplied values of those three
fields.  The `getD 0` on the engine result is never exercised: with a numeric
rate the engine always returns `some` (theorem `calc_total_num_some`). -/
def create_invoice (req : CreateReq) : Except String InvRecord :=
  if req.items.isEmpty then .error "items must be a non-empty list"
  else
    match pyFloat (req.gst_rate.getD (.num 18)) with
    | Option.none => .error "Failed to create invoice"
    | some g =>
      .ok { total := some (.num ((calculate_invoice_total req.items (.num g)).getD 0))
            status := some "unpaid"
            amount_paid := some (.num 0)
            for_id := req.for_id
            date := req.date }

/-- The numeric coercions `(float(inv.get("total", 0)), float(inv.get("amount_paid", 0)))`
of one invoice, in source order; `none` when either raises — the aggregation
loop then hits `except (ValueError, TypeError): continue` before any
accumulation and the invoice is skipped. -/
def invNums? (inv : InvRecord) : Option (ℚ × ℚ) :=
  match fieldFloat inv.total, fieldFloat inv.amount_paid with
  | some t, some p => some (t, p)
  | _, _ => Option.none

/-- Insertion-ordered association list accumulation: Python's
`defaultdict(float)` under `d[k] += v` with dict insertion-order iteration
(first occurrence keeps its position, a new key is appended). -/
def bumpAssoc {α : Type} [DecidableEq α] : List (α × ℚ) → α → ℚ → List (α × ℚ)
  | [], k, v => [(k, v)]
  | (k₀, v₀) :: t, k, v =>
    if k₀ = k then (k₀, v₀ + v) :: t else (k₀, v₀) :: bumpAssoc t k v

/-- The accumulator state of the aggregation loop of `reports_summary`. -/
structure Agg where
  ti : ℚ := 0
  tp : ℚ := 0
  nPaid : ℕ := 0
  nPart : ℕ := 0
  nUnpaid : ℕ := 0
  clientRev : List (PyVal × ℚ) := []
  monthly : List (String × ℚ) := []

/-- Update `if client_id: client_revenue[client_id] += invoice_total` — the
per-client revenue update, skipped for an absent or falsy client id. -/
def clientBump (m : List (PyVal × ℚ)) (cid? : Option PyVal) (amt : ℚ) : List (PyVal × ℚ) :=
  match cid? with
  | some cid => if pyTruthy cid then bumpAssoc m cid amt else m
  | Option.none => m

/-- One iteration of the aggregation loop of `reports_summary` (app.py, lines
1248-1278): coerce `total` and `amount_paid` (skip the invoice on failure),
accumulate the two totals, count the status when it is one of the three known
keys, accumulate per-client revenue when the referenced client id is truthy,
and accumulate monthly revenue under the key `date[:7]` when the date is a
truthy string.  The loop body's sequential statements touch disjoint parts of
the accumulator, so they are one simultaneous record update here. -/
def stepInv (a : Agg) (inv : InvRecord) : Agg :=
  match invNums? inv with
  | Option.none => a
  | some v =>
    let st := statusOf inv
    let d := inv.date.getD ""
    { ti := a.ti + v.1
      tp := a.tp + v.2
      nPaid := a.nPaid + (if st = "paid" then 1 else 0)
      nPart := a.nPart + (if st = "partial" then 1 else 0)
      nUnpaid := a.nUnpaid + (if st = "unpaid" then 1 else 0)
      clientRev := clientBump a.clientRev inv.for_id v.1
      monthly := if d = "" then a.monthly else bumpAssoc a.monthly (d.take 7) v.1 }

/-- The aggregation loop of `reports_summary` over all invoices. -/
def aggregate (invs : List InvRecord) : Agg := invs.foldl stepInv {}

/-- Per-invoice contribution to `total_invoiced` (zero when skipped). -/
def tiContrib (inv : InvRecord) : ℚ :=
  match invNums? inv with
  | some v => v.1
  | Option.none => 0

/-- Per-invoice contribution to `total_paid` (zero when skipped). -/
def tpContrib (inv : InvRecord) : ℚ :=
  match invNums? inv with
  | some v => v.2
  | Option.none => 0

/-- Spec-side closed form: `total_invoiced` accumulated at full precision. -/
def specTotalInvoiced (invs : List InvRecord) : ℚ := (invs.map tiContrib).sum

/-- Spec-side closed form: `total_paid` accumulated at full precision. -/
def specTotalPaid (invs : List InvRecord) : ℚ := (invs.map tpContrib).sum

/-- Per-invoice contribution to the monthly bucket `k`: the invoice's total
when its date is a truthy string whose first 7 characters equal `k`. -/
def monthContrib (inv : InvRecord) (k : String) : ℚ :=
  match invNums? inv with
  | some v => if inv.date.getD "" ≠ "" ∧ (inv.date.getD "").take 7 = k then v.1 else 0
  | Option.none => 0

/-- Spec-side closed form: revenue grouped under the month key `k`. -/
def specMonthTotal (invs : List InvRecord) (k : String) : ℚ :=
  (invs.map (monthContrib · k)).sum

/-- Code-point lexicographic `≤` on character lists (Python string order). -/
def charsLe : List Char → List Char → Bool
  | [], _ => true
  | _ :: _, [] => false
  | a :: as, b :: bs =>
    if a.toNat < b.toNat then true
    else if b.toNat < a.toNat then false
    else charsLe as bs

/-- Python's string `≤` (code-point lexicographic), used by `sorted` on the
month keys. -/
def strLe (s₁ s₂ : String) : Bool := charsLe s₁.data s₂.data

/-- Decimal value of a digit string. -/
def digitsVal (cs : List Char) : ℕ := cs.foldl (fun n c => n * 10 + (c.toNat - 48)) 0

/-- Modelled from CPython: `datetime.strptime(k + "-01", "%Y-%m-%d")` succeeds
exactly when `k` is (year digits, exactly 4 of them — CPython's `%Y` pattern
is `\d\d\d\d` — with value ≥ 1, since `datetime` rejects year 0) `-` (month
digits, 1-2 of them, value 1..12); the appended day `01` is valid in every
such month.  The aggregator keeps a monthly bucket in its report only when
its key passes this parse. -/
def monthKeyValid (k : String) : Bool :=
  let ys := k.data.takeWhile Char.isDigit
  match k.data.dropWhile Char.isDigit with
  | '-' :: ms =>
    decide (ys.length = 4) && decide (1 ≤ digitsVal ys) &&
    ms.all Char.isDigit && decide (1 ≤ ms.length) && decide (ms.length ≤ 2) &&
    decide (1 ≤ digitsVal ms) && decide (digitsVal ms ≤ 12)
  | _ => false

/-- A client document, restricted to the roster key
`c.get("id", c.get("_id"))` used by the top-clients join (name and email are
presentation fields). -/
structure ClientRecord where
  id : PyVal
deriving DecidableEq

/-- The roster keys of `client_dict` (later duplicates overwrite earlier ones,
which leaves membership unchanged). -/
def rosterIds (clients : List ClientRecord) : List PyVal := clients.map ClientRecord.id

/-- The top-client candidate list, in first-encounter order: revenue entries
with `revenue > 0` whose client id is in the roster, each carried with its
rounded revenue (`round(revenue, 2)` is applied when the entry is built,
before sorting). -/
def top_client_candidates (invs : List InvRecord) (clients : List ClientRecord) :
    List (PyVal × ℚ) :=
  (aggregate invs).clientRev.filterMap fun e =>
    if 0 < e.2 ∧ e.1 ∈ rosterIds clients then some (e.1, round2 e.2) else Option.none

/-- Descending-revenue order: `list.sort(key=revenue, reverse=True)`. -/
def revDesc : PyVal × ℚ → PyVal × ℚ → Prop := fun e₁ e₂ => e₂.2 ≤ e₁.2

instance : DecidableRel revDesc := fun e₁ e₂ => inferInstanceAs (Decidable (e₂.2 ≤ e₁.2))

/-- Ascending month-key order: `sorted(monthly_data.items())`. -/
def keyAsc : String × ℚ → String × ℚ → Prop := fun m₁ m₂ => strLe m₁.1 m₂.1 = true

instance : DecidableRel keyAsc := fun m₁ m₂ => inferInstanceAs (Decidable (_ = true))

/-- The summary produced by `reports_summary`.  Monetary outputs carry the
`round(_, 2)` applied at the point of output; `monthly_data` entries keep
their raw `"YYYY-MM"` key (the human month label derived from it is a
presentation concern). -/
structure Summary where
  total_invoiced : ℚ
  total_paid : ℚ
  total_outstanding : ℚ
  invoice_count : ℕ
  client_count : ℕ
  nPaid : ℕ
  nPart : ℕ
  nUnpaid : ℕ
  top_clients : List (PyVal × ℚ)
  monthly_data : List (String × ℚ)
  average_invoice : ℚ
  collection_rate : ℚ

/-- Handler `reports_summary` (app.py, lines 1234-1324): run the aggregation loop,
set `total_outstanding = total_invoiced - total_paid` at full precision, build
the top-client list (filter, stable descending sort on the rounded revenue,
first 5), build the monthly list (sort all buckets ascending by key, drop
buckets whose key fails the `strptime` parse, round each amount, keep the last
6), and round the monetary scalars at output. -/
def reports_summary (invoices : List InvRecord) (clients : List ClientRecord) : Summary :=
  let a := aggregate invoices
  let top := (List.insertionSort revDesc (top_client_candidates invoices clients)).take 5
  let ml := ((List.insertionSort keyAsc a.monthly).filter fun m => monthKeyValid m.1).map
    fun m => (m.1, round2 m.2)
  { total_invoiced := round2 a.ti
    total_paid := round2 a.tp
    total_outstanding := round2 (a.ti - a.tp)
    invoice_count := invoices.length
    client_count := clients.length
    nPaid := a.nPaid
    nPart := a.nPart
    nUnpaid := a.nUnpaid
    top_clients := top
    monthly_data := ml.drop (ml.length - 6)
    average_invoice := if invoices.isEmpty then 0 else round2 (a.ti / (invoices.length : ℚ))
    collection_rate := if 0 < a.ti then round2 (a.tp / a.ti * 100) else 0 }

/-- An invoice stored with sub-cent amounts (not producible by the service's
own create/update/pay handlers, but within the aggregator's input type). -/
def subCentInvoice : InvRecord :=
  { total := some (.num (3/200)), amount_paid := some (.num (1/200)) }

/-- An invoice whose `total` fails numeric coercion. -/
def badInvoice : InvRecord := { total := some (.str "oops") }

/-- An invoice with a truthy but malformed date. -/
def badDateInvoice : InvRecord := { total := some (.num 5), date := some "garbage" }

/-- A freshly created invoice with total `256.00` (concrete scenario 2). -/
def invC4 : InvRecord :=
  { total := some (.num 256), amount_paid := some (.num 0), status := some "unpaid" }

/-- Concrete scenario 3, first invoice: total `256.00`, fully paid. -/
def invA : InvRecord :=
  { total := some (.num 256), amount_paid := some (.num 256), status := some "paid" }

/-- Concrete scenario 3, second invoice: total `100.00`, unpaid. -/
def invB : InvRecord :=
  { total := some (.num 100), amount_paid := some (.num 0), status := some "unpaid" }

/-- An invoice of total `100` attributed to client id `7`. -/
def topClientInvoice : InvRecord :=
  { total := some (.num 100), amount_paid := some (.num 0), status := some "unpaid",
    for_id := some (.num 7) }

/-- The roster entry for client id `7`. -/
def topClient : ClientRecord := ⟨.num 7⟩

/-- An invoice of total `5` dated `"2024-05-17"`. -/
def datedInvoice : InvRecord := { total := some (.num 5), date := some "2024-05-17" }

/-- An adversarial create request supplying its own `status`, `amount_paid`
and `total`. -/
def sampleReq : CreateReq :=
  { items := [sampleItem], gst_rate := some (.num 18), status := some "paid",
    amount_paid := some (.num 999), total := some (.num 1) }

/-- The invoice stored for `sampleReq`. -/
def sampleReqInvoice : InvRecord :=
  { total := some (.num ((calculate_invoice_total [sampleItem] (.num 18)).getD 0))
    status := some "unpaid"
    amount_paid := some (.num 0)
    for_id := Option.none
    date := Option.none }

/-- The `monthly` projection of one aggregation step. -/
def monthlyStep (m : List (String × ℚ)) (inv : InvRecord) : List (String × ℚ) :=
  match invNums? inv with
  | Option.none => m
  | some v =>
    if inv.date.getD "" = "" then m else bumpAssoc m ((inv.date.getD "").take 7) v.1

/-- The `monthly` projection of one aggregation step, restricted to buckets
whose key passes the `strptime` parse (the only buckets the report shows). -/
def monthlyStepFV (m : List (String × ℚ)) (inv : InvRecord) : List (String × ℚ) :=
  match invNums? inv with
  | Option.none => m
  | some v =>
    if inv.date.getD "" = "" then m
    else if monthKeyValid ((inv.date.getD "").take 7) then
      bumpAssoc m ((inv.date.getD "").take 7) v.1
    else m

/-- The `clientRev` projection of one aggregation step. -/
def clientStep (m : List (PyVal × ℚ)) (inv : InvRecord) : List (PyVal × ℚ) :=
  match invNums? inv with
  | Option.none => m
  | some v => clientBump m inv.for_id v.1

/-- An invoice whose stored `total` and `amount_paid`, where they coerce at
all, are whole-cent amounts — the shape the service itself always stores
(`total` is a `round(_, 2)` output of the totals engine and `amount_paid` a
`round(_, 2)` output of the payment action). -/
def WholeCentInvoice (inv : InvRecord) : Prop :=
  (∀ q : ℚ, fieldFloat inv.total = some q → Mult100 q) ∧
  (∀ q : ℚ, fieldFloat inv.amount_paid = some q → Mult100 q)

/-- Association-list lookup with default `0` (a `defaultdict(float)` read). -/
def lookupQ : List (String × ℚ) → String → ℚ
  | [], _ => 0
  | (k₀, v₀) :: t, k => if k₀ = k then v₀ else lookupQ t k

/-- The full monthly list of `reports_summary` before the `[-6:]` slice: all
buckets sorted ascending by key, keys failing the `strptime` parse dropped,
amounts rounded.  `monthly_data` is definitionally the drop of all but the
last 6 entries of this list. -/
def monthlyFull (invs : List InvRecord) : List (String × ℚ) :=
  ((List.insertionSort keyAsc (aggregate invs).monthly).filter fun m => monthKeyValid m.1).map
    fun m => (m.1, round2 m.2)

/-- An invoice of total `t` dated on the 15th of month `d`. -/
def monthInvoice (d : String) (t : ℚ) : InvRecord :=
  { total := some (.num t), date := some (d ++ "-15") }

/-- Seven invoices spanning seven consecutive months of 2024. -/
def sevenMonths : List InvRecord :=
  [monthInvoice "2024-01" 1, monthInvoice "2024-02" 2, monthInvoice "2024-03" 3,
   monthInvoice "2024-04" 4, monthInvoice "2024-05" 5, monthInvoice "2024-06" 6,
   monthInvoice "2024-07" 7]

/-! ### Theorems -/

theorem floor_le_rhe (q : ℚ) : ⌊q⌋ ≤ rhe q := by
  unfold rhe
  split_ifs <;> omega

theorem rhe_intCast (k : ℤ) : rhe (k : ℚ) = k := by
  unfold rhe
  rw [Int.floor_intCast]
  norm_num

theorem round2_mult100 (q : ℚ) : Mult100 (round2 q) := ⟨rhe (q * 100), rfl⟩

theorem mult100_zero : Mult100 0 := ⟨0, by norm_num⟩

theorem mult100_add {a b : ℚ} (ha : Mult100 a) (hb : Mult100 b) : Mult100 (a + b) := by
  obtain ⟨j, rfl⟩ := ha
  obtain ⟨k, rfl⟩ := hb
  exact ⟨j + k, by push_cast; ring⟩

theorem mult100_sub {a b : ℚ} (ha : Mult100 a) (hb : Mult100 b) : Mult100 (a - b) := by
  obtain ⟨j, rfl⟩ := ha
  obtain ⟨k, rfl⟩ := hb
  exact ⟨j - k, by push_cast; ring⟩

theorem round2_eq_self {q : ℚ} (h : Mult100 q) : round2 q = q := by
  obtain ⟨k, rfl⟩ := h
  unfold round2
  rw [div_mul_cancel₀ (k : ℚ) (by norm_num : (100 : ℚ) ≠ 0), rhe_intCast]

theorem round2_zero : round2 0 = 0 := round2_eq_self mult100_zero

/-- A whole-cent lower bound survives rounding: if `m` is a multiple of `1/100`
and `m ≤ q` then `m ≤ round2 q`. -/
theorem le_round2 {m q : ℚ} (hm : Mult100 m) (h : m ≤ q) : m ≤ round2 q := by
  obtain ⟨k, rfl⟩ := hm
  have hk : (k : ℚ) ≤ q * 100 := by
    have := mul_le_mul_of_nonneg_right h (by norm_num : (0:ℚ) ≤ 100)
    calc (k : ℚ) = (k : ℚ) / 100 * 100 := by ring
    _ ≤ q * 100 := this
  have h₁ : k ≤ ⌊q * 100⌋ := Int.le_floor.mpr hk
  have h₂ : k ≤ rhe (q * 100) := le_trans h₁ (floor_le_rhe _)
  unfold round2
  have h₃ : (k : ℚ) ≤ (rhe (q * 100) : ℚ) := Int.cast_le.mpr h₂
  linarith

theorem filterMap_eq_of_map_eq_map_some {α β : Type} {f : α → Option β} :
    ∀ {l : List α} {vals : List β}, l.map f = vals.map some → l.filterMap f = vals := by
  intro l
  induction l with
  | nil =>
    intro vals h
    cases vals with
    | nil => rfl
    | cons v vs => simp at h
  | cons a l ih =>
    intro vals h
    cases vals with
    | nil => simp at h
    | cons v vs =>
      simp only [List.map_cons, List.cons.injEq] at h
      rw [List.filterMap_cons, h.1, ih h.2]

theorem calc_total_of_all_numeric (items : List LineItem) (vals : List (ℚ × ℚ × ℚ)) (g : ℚ)
    (h : items.map itemVals? = vals.map some) :
    calculate_invoice_total items (.num g) =
      some (round2 (specSubtotal vals + specItemTax vals + specSubtotal vals * g / 100)) := by
  have hfm : items.filterMap itemVals? = vals := filterMap_eq_of_map_eq_map_some h
  have hcontrib : items.filterMap itemContribution =
      vals.map fun v => (v.1 * v.2.1, v.1 * v.2.1 * v.2.2 / 100) := by
    unfold itemContribution
    rw [← List.map_filterMap, hfm]
  cases hItems : items.isEmpty with
  | true =>
    have hit : items = [] := by
      cases items with
      | nil => rfl
      | cons a l => simp at hItems
    subst hit
    have hv : vals = [] := by
      cases vals with
      | nil => rfl
      | cons v vs => simp at h
    subst hv
    show some 0 = _
    rw [show specSubtotal [] = 0 from rfl, show specItemTax [] = 0 from rfl]
    norm_num [round2_zero]
  | false =>
    simp only [calculate_invoice_total, hItems, Bool.false_eq_true, if_false, hcontrib,
      List.map_map, pyFloat, Option.map_some']
    rfl

/-- With a numeric GST rate the totals engine always returns a value. -/
theorem calc_total_num_some (items : List LineItem) (g : ℚ) :
    calculate_invoice_total items (.num g) =
      some ((calculate_invoice_total items (.num g)).getD 0) := by
  cases h : items.isEmpty <;> simp [calculate_invoice_total, h, pyFloat]

/-- Claim C1: for items whose `quantity`, `unit_price` and `tax` fields all
coerce to numbers (with values `vals`, in order) and a numeric GST rate `g`,
`calculate_invoice_total` equals
`round(subtotal + item_tax_total + gst_amount, 2)` with `subtotal` and
`item_tax_total` the closed-form sums of §4.1 and
`gst_amount = subtotal * g / 100`; the concrete scenario
`[{quantity: 2, unit_price: 100, tax: 10}]` with `gst_rate = 18` yields
`256.00`, and an empty items list yields `0`. -/
theorem c1_total_closed_form :
    (∀ (items : List LineItem) (vals : List (ℚ × ℚ × ℚ)) (g : ℚ),
      items.map itemVals? = vals.map some →
      calculate_invoice_total items (.num g) =
        some (round2 (specSubtotal vals + specItemTax vals + specSubtotal vals * g / 100))) ∧
    calculate_invoice_total [sampleItem] (.num 18) = some 256 ∧
    (∀ g : ℚ, calculate_invoice_total [] (.num g) = some 0) := by
  refine ⟨calc_total_of_all_numeric, ?_, fun g => rfl⟩
  rw [calc_total_of_all_numeric [sampleItem] [(2, 100, 10)] 18 rfl]
  have harg : specSubtotal [(2, 100, 10)] + specItemTax [(2, 100, 10)]
      + specSubtotal [(2, 100, 10)] * 18 / 100 = 256 := by
    norm_num [specSubtotal, specItemTax]
  rw [harg, round2_eq_self ⟨25600, by norm_num⟩]

/-- Claim C1 witness: the closed form instantiated at the concrete scenario. -/
theorem c1_total_closed_form_witness :
    ([sampleItem].map itemVals? = [((2 : ℚ), (100 : ℚ), (10 : ℚ))].map some) ∧
    calculate_invoice_total [sampleItem] (.num 18) =
      some (round2 (specSubtotal [(2, 100, 10)] + specItemTax [(2, 100, 10)]
        + specSubtotal [(2, 100, 10)] * 18 / 100)) :=
  ⟨rfl, c1_total_closed_form.1 [sampleItem] [(2, 100, 10)] 18 rfl⟩

/-- Claim C5: an item whose field coercion fails is skipped silently — it
contributes zero and the remaining items are still summed; the call still
returns a value (no error is surfaced for the malformed item). -/
theorem c5_malformed_item_skipped (l₁ l₂ : List LineItem) (it : LineItem) (g : ℚ)
    (h : itemVals? it = Option.none) :
    calculate_invoice_total (l₁ ++ it :: l₂) (.num g) =
      calculate_invoice_total (l₁ ++ l₂) (.num g) ∧
    (calculate_invoice_total (l₁ ++ it :: l₂) (.num g)).isSome := by
  have hnone : itemContribution it = Option.none := by
    unfold itemContribution
    rw [h]
    rfl
  have hfm : (l₁ ++ it :: l₂).filterMap itemContribution =
      (l₁ ++ l₂).filterMap itemContribution := by
    simp [List.filterMap_append, List.filterMap_cons, hnone]
  have hne : (l₁ ++ it :: l₂).isEmpty = false := by
    cases l₁ <;> rfl
  constructor
  · cases hE : (l₁ ++ l₂).isEmpty with
    | true =>
      have h₁ : l₁ = [] := by
        cases l₁ with
        | nil => rfl
        | cons a l => simp at hE
      have h₂ : l₂ = [] := by
        subst h₁
        cases l₂ with
        | nil => rfl
        | cons a l => simp at hE
      subst h₁
      subst h₂
      simp only [calculate_invoice_total, List.nil_append, hne, Bool.false_eq_true, if_false,
        List.filterMap_cons, hnone, List.filterMap_nil, List.map_nil, List.sum_nil,
        List.isEmpty_nil, if_true, pyFloat, Option.map_some']
      norm_num [round2_zero]
    | false =>
      simp only [calculate_invoice_total, hne, hE, Bool.false_eq_true, if_false, hfm]
  · simp only [calculate_invoice_total, hne, Bool.false_eq_true, if_false, pyFloat,
      Option.map_some', Option.isSome_some]

/-- Claim C5 witness: a concrete malformed item (`quantity = "abc"`) between
two well-formed ones. -/
theorem c5_malformed_item_skipped_witness :
    itemVals? { quantity := some (.str "abc") } = Option.none ∧
    calculate_invoice_total [sampleItem, { quantity := some (.str "abc") }] (.num 18) =
      calculate_invoice_total [sampleItem] (.num 18) :=
  ⟨rfl, (c5_malformed_item_skipped [sampleItem] [] { quantity := some (.str "abc") } 18 rfl).1⟩

theorem payStatus_paid {p t : ℚ} (h : t ≤ p) : payStatus p t = "paid" := if_pos h

theorem payStatus_mid {p t : ℚ} (h₁ : ¬ t ≤ p) (h₂ : 0 < p) :
    payStatus p t = "partial" := by
  unfold payStatus
  rw [if_neg h₁, if_pos h₂]

theorem payStatus_unpaid {p t : ℚ} (h₁ : ¬ t ≤ p) (h₂ : ¬ 0 < p) :
    payStatus p t = "unpaid" := by
  unfold payStatus
  rw [if_neg h₁, if_neg h₂]

/-- Claim C2 counterexample: at `amount_paid = 0, total = 0` both the `paid`
threshold (`0 ≥ 0`) and the `unpaid` threshold (`0 = 0`) hold, so it is not
the case that exactly one status holds for every pair. -/
theorem c2_cex_zero_total : ¬ (∀ p t : ℚ, thresholdCount p t = 1) := by
  intro h
  have h00 := h 0 0
  norm_num [thresholdCount] at h00

/-- Claim C2 (amended): for `amount_paid ≥ 0` and `total > 0` exactly one of
the three spec thresholds holds, and the status computed by `pay_invoice`
(`payStatus`) agrees with the rule on every such pair. -/
theorem c2_status_partition (p t : ℚ) (hp : 0 ≤ p) (ht : 0 < t) :
    thresholdCount p t = 1 ∧
    (payStatus p t = "paid" ↔ t ≤ p) ∧
    (payStatus p t = "partial" ↔ (0 < p ∧ p < t)) ∧
    (payStatus p t = "unpaid" ↔ p = 0) := by
  by_cases h₁ : t ≤ p
  · have hpne : p ≠ 0 := fun h => by rw [h] at h₁; linarith
    have hnp : ¬ (0 < p ∧ p < t) := fun hc => by linarith [hc.2]
    rw [payStatus_paid h₁]
    refine ⟨?_, ?_, ?_, ?_⟩
    · unfold thresholdCount
      rw [if_pos h₁, if_neg hnp, if_neg hpne]
    · exact ⟨fun _ => h₁, fun _ => rfl⟩
    · exact ⟨fun h => absurd h (by decide), fun h => absurd h hnp⟩
    · exact ⟨fun h => absurd h (by decide), fun h => absurd h hpne⟩
  · by_cases h₂ : 0 < p
    · rw [payStatus_mid h₁ h₂]
      have hlt : p < t := not_le.mp h₁
      have hpne : p ≠ 0 := ne_of_gt h₂
      refine ⟨?_, ?_, ?_, ?_⟩
      · unfold thresholdCount
        rw [if_neg h₁, if_pos ⟨h₂, hlt⟩, if_neg hpne]
      · exact ⟨fun h => absurd h (by decide), fun h => absurd h h₁⟩
      · exact ⟨fun _ => ⟨h₂, hlt⟩, fun _ => rfl⟩
      · exact ⟨fun h => absurd h (by decide), fun h => absurd h hpne⟩
    · have hp0 : p = 0 := le_antisymm (not_lt.mp h₂) hp
      subst hp0
      rw [payStatus_unpaid h₁ h₂]
      refine ⟨?_, ?_, ?_, ?_⟩
      · unfold thresholdCount
        rw [if_neg h₁, if_neg (fun hc => absurd hc.1 h₂), if_pos rfl]
      · exact ⟨fun h => absurd h (by decide), fun h => absurd h h₁⟩
      · exact ⟨fun h => absurd h (by decide), fun hc => absurd hc.1 h₂⟩
      · exact ⟨fun _ => rfl, fun _ => rfl⟩

/-- Claim C2 witness: the partition and agreement at `(5, 10)`. -/
theorem c2_status_partition_witness :
    thresholdCount 5 10 = 1 ∧
    (payStatus 5 10 = "paid" ↔ (10 : ℚ) ≤ 5) ∧
    (payStatus 5 10 = "partial" ↔ ((0 : ℚ) < 5 ∧ (5 : ℚ) < 10)) ∧
    (payStatus 5 10 = "unpaid" ↔ (5 : ℚ) = 0) :=
  c2_status_partition 5 10 (by norm_num) (by norm_num)

/-- Claim C7: a payment request whose amount coerces to a non-positive number
is rejected with an error before any state is touched; the stored invoice is
unchanged (the error branch returns no updated record). -/
theorem c7_nonpositive_payment_rejected (inv : InvRecord) (a : PyVal) (q : ℚ)
    (h : pyFloat a = some q) (hq : q ≤ 0) :
    pay_invoice inv a = .error "Payment amount must be positive" := by
  simp only [pay_invoice, h]
  rw [if_pos hq]

/-- Claim C7 witness: a zero payment against a concrete invoice. -/
theorem c7_nonpositive_payment_rejected_witness :
    pyFloat (.num 0) = some 0 ∧ (0 : ℚ) ≤ 0 ∧
    pay_invoice invC4 (.num 0) = .error "Payment amount must be positive" :=
  ⟨rfl, le_refl 0, c7_nonpositive_payment_rejected invC4 (.num 0) 0 rfl (le_refl 0)⟩

/-- An accepted positive numeric payment against an invoice with coercible
stored amounts: the stored record after `pay_invoice`. -/
theorem pay_invoice_num_ok (inv : InvRecord) (a p₀ t : ℚ) (ha : 0 < a)
    (hpaid : inv.amount_paid = some (.num p₀)) (htot : inv.total = some (.num t)) :
    pay_invoice inv (.num a) = .ok { inv with
      amount_paid := some (.num (round2 (p₀ + a)))
      status := some (payStatus (p₀ + a) t) } := by
  simp only [pay_invoice, pyFloat, fieldFloat, hpaid, htot, Option.getD_some]
  rw [if_neg (not_le.mpr ha)]

/-- Claim C4: starting from any invoice state satisfying the stored-data
invariants (whole-cent `total` and `amount_paid`, non-negative `amount_paid`,
a known status that is `paid` only when the total is reached), every sequence
of positive payments is accepted, and along the resulting trace the stored
`amount_paid` never decreases and the status never regresses in the order
`unpaid < partial < paid`. -/
theorem c4_payment_monotonic (t : ℚ) (ht : Mult100 t) :
    ∀ (as : List ℚ) (inv₀ : InvRecord) (p₀ : ℚ) (s₀ : String),
      inv₀.total = some (.num t) → inv₀.amount_paid = some (.num p₀) →
      inv₀.status = some s₀ → Mult100 p₀ → 0 ≤ p₀ →
      (s₀ = "unpaid" ∨ s₀ = "partial" ∨ (s₀ = "paid" ∧ t ≤ p₀)) →
      (∀ a ∈ as, 0 < a) →
      ∃ tr, payTrace inv₀ as = some tr ∧
        List.Chain' (fun i₁ i₂ => paidOf i₁ ≤ paidOf i₂ ∧
          statusRank (statusOf i₁) ≤ statusRank (statusOf i₂)) (inv₀ :: tr) := by
  intro as
  induction as with
  | nil =>
    intro inv₀ p₀ s₀ _ _ _ _ _ _ _
    exact ⟨[], rfl, List.chain'_singleton _⟩
  | cons a as ih =>
    intro inv₀ p₀ s₀ htot hpaid hstat hm hp0 hs ha
    have hApos : 0 < a := ha a (List.mem_cons_self a as)
    have hstep := pay_invoice_num_ok inv₀ a p₀ t hApos hpaid htot
    have hs' : payStatus (p₀ + a) t = "unpaid" ∨ payStatus (p₀ + a) t = "partial" ∨
        (payStatus (p₀ + a) t = "paid" ∧ t ≤ round2 (p₀ + a)) := by
      by_cases hts : t ≤ p₀ + a
      · exact Or.inr (Or.inr ⟨payStatus_paid hts, le_round2 ht hts⟩)
      · exact Or.inr (Or.inl (payStatus_mid hts (by linarith)))
    obtain ⟨tr, htr, hchain⟩ := ih
      { inv₀ with
        amount_paid := some (.num (round2 (p₀ + a)))
        status := some (payStatus (p₀ + a) t) }
      (round2 (p₀ + a)) (payStatus (p₀ + a) t) htot rfl rfl (round2_mult100 _)
      (le_round2 mult100_zero (by linarith)) hs'
      (fun b hb => ha b (List.mem_cons_of_mem a hb))
    refine ⟨{ inv₀ with
        amount_paid := some (.num (round2 (p₀ + a)))
        status := some (payStatus (p₀ + a) t) } :: tr, ?_, ?_⟩
    · simp only [payTrace, hstep, htr, Option.map_some']
    · rw [List.chain'_cons]
      refine ⟨⟨?_, ?_⟩, hchain⟩
      · have e₁ : paidOf inv₀ = p₀ := by simp [paidOf, fieldFloat, hpaid, pyFloat]
        have e₂ : paidOf { inv₀ with
            amount_paid := some (.num (round2 (p₀ + a)))
            status := some (payStatus (p₀ + a) t) } = round2 (p₀ + a) := by
          simp [paidOf, fieldFloat, pyFloat]
        rw [e₁, e₂]
        exact le_round2 hm (by linarith)
      · have e₁ : statusOf inv₀ = s₀ := by simp [statusOf, hstat]
        have e₂ : statusOf { inv₀ with
            amount_paid := some (.num (round2 (p₀ + a)))
            status := some (payStatus (p₀ + a) t) } = payStatus (p₀ + a) t := by
          simp [statusOf]
        rw [e₁, e₂]
        rcases hs with h | h | h
        · rw [h]
          exact Nat.zero_le _
        · rw [h]
          by_cases hts : t ≤ p₀ + a
          · rw [payStatus_paid hts]
            decide
          · rw [payStatus_mid hts (by linarith)]
        · rw [h.1, payStatus_paid (by linarith [h.2] : t ≤ p₀ + a)]

/-- Claim C4 witness: scenario 2 — total `256.00`, payments `100` then `156`
from a fresh invoice. -/
theorem c4_payment_monotonic_witness :
    ∃ tr, payTrace invC4 [100, 156] = some tr ∧
      List.Chain' (fun i₁ i₂ => paidOf i₁ ≤ paidOf i₂ ∧
        statusRank (statusOf i₁) ≤ statusRank (statusOf i₂)) (invC4 :: tr) :=
  c4_payment_monotonic 256 ⟨25600, by norm_num⟩ [100, 156] invC4 0 "unpaid"
    rfl rfl rfl mult100_zero le_rfl (Or.inl rfl)
    (by
      intro a h
      simp only [List.mem_cons, List.mem_singleton] at h
      rcases h with rfl | h
      · norm_num
      · simp only [List.not_mem_nil, or_false] at h
        rw [h]
        norm_num)

/-- Claim C10: whatever a create request supplies, the stored invoice has
status `unpaid`, `amount_paid = 0.0`, and a `total` equal to the totals-engine
output for the submitted items and coerced GST rate. -/
theorem c10_create_overrides (req : CreateReq) (inv : InvRecord)
    (h : create_invoice req = .ok inv) :
    inv.status = some "unpaid" ∧ inv.amount_paid = some (.num 0) ∧
    ∃ g tval : ℚ, pyFloat (req.gst_rate.getD (.num 18)) = some g ∧
      calculate_invoice_total req.items (.num g) = some tval ∧
      inv.total = some (.num tval) := by
  unfold create_invoice at h
  by_cases hempty : req.items.isEmpty
  · rw [if_pos hempty] at h
    exact Except.noConfusion h
  · rw [if_neg hempty] at h
    cases hg : pyFloat (req.gst_rate.getD (.num 18)) with
    | none =>
      simp only [hg] at h
      exact Except.noConfusion h
    | some g =>
      simp only [hg] at h
      injection h with h'
      subst h'
      exact ⟨rfl, rfl, g, (calculate_invoice_total req.items (.num g)).getD 0,
        rfl, calc_total_num_some req.items g, rfl⟩

/-- Claim C10 witness: an adversarial request supplying `status = "paid"`,
`amount_paid = 999`, `total = 1` is stored as unpaid with zero paid and the
engine's total. -/
theorem c10_create_overrides_witness :
    create_invoice sampleReq = .ok sampleReqInvoice ∧
    (sampleReqInvoice.status = some "unpaid" ∧
     sampleReqInvoice.amount_paid = some (.num 0) ∧
     ∃ g tval : ℚ, pyFloat (sampleReq.gst_rate.getD (.num 18)) = some g ∧
       calculate_invoice_total sampleReq.items (.num g) = some tval ∧
       sampleReqInvoice.total = some (.num tval)) :=
  ⟨rfl, c10_create_overrides sampleReq sampleReqInvoice rfl⟩

/-- Claim C6 counterexample: the totals engine is not total — a non-empty
items list together with a non-numeric `gst_rate` makes the uncaught
`float(gst_rate)` raise (modelled as `none`), because that coercion sits
outside the per-item `try`. -/
theorem c6_cex_nonnumeric_gst : calculate_invoice_total [{}] (.str "x") = Option.none := rfl

/-- Claim C6 (amended): the totals engine returns a value exactly when the
items list is empty or the GST rate coerces; the reporting aggregator catches
coercion failures at per-invoice granularity — an invoice whose `total` or
`amount_paid` coercion raises is skipped and the aggregate over the remaining
invoices is unchanged. -/
theorem c6_totality_amended :
    (∀ (items : List LineItem) (gst : PyVal),
      (calculate_invoice_total items gst).isSome ↔ (items = [] ∨ (pyFloat gst).isSome)) ∧
    (∀ (l₁ l₂ : List InvRecord) (inv : InvRecord), invNums? inv = Option.none →
      aggregate (l₁ ++ inv :: l₂) = aggregate (l₁ ++ l₂)) := by
  constructor
  · intro items gst
    cases items with
    | nil => simp [calculate_invoice_total]
    | cons it its =>
      simp only [calculate_invoice_total, List.isEmpty_cons, Bool.false_eq_true, if_false]
      cases hg : pyFloat gst <;> simp [hg]
  · intro l₁ l₂ inv hbad
    unfold aggregate
    rw [List.foldl_append, List.foldl_cons, List.foldl_append]
    congr 1
    simp [stepInv, hbad]

/-- Claim C6 witness: a concrete invoice with a non-numeric `total` leaves the
whole aggregate untouched. -/
theorem c6_totality_amended_witness :
    invNums? badInvoice = Option.none ∧
    aggregate ([] ++ badInvoice :: []) = aggregate ([] ++ []) :=
  ⟨rfl, c6_totality_amended.2 [] [] badInvoice rfl⟩

theorem invNums?_total {inv : InvRecord} {v : ℚ × ℚ} (h : invNums? inv = some v) :
    fieldFloat inv.total = some v.1 := by
  unfold invNums? at h
  cases hft : fieldFloat inv.total with
  | none => simp [hft] at h
  | some t =>
    cases hfp : fieldFloat inv.amount_paid with
    | none => simp [hft, hfp] at h
    | some p =>
      simp only [hft, hfp, Option.some.injEq] at h
      rw [← h]

theorem invNums?_paid {inv : InvRecord} {v : ℚ × ℚ} (h : invNums? inv = some v) :
    fieldFloat inv.amount_paid = some v.2 := by
  unfold invNums? at h
  cases hft : fieldFloat inv.total with
  | none => simp [hft] at h
  | some t =>
    cases hfp : fieldFloat inv.amount_paid with
    | none => simp [hft, hfp] at h
    | some p =>
      simp only [hft, hfp, Option.some.injEq] at h
      rw [← h]

theorem stepInv_ti (a : Agg) (inv : InvRecord) : (stepInv a inv).ti = a.ti + tiContrib inv := by
  unfold stepInv tiContrib
  cases h : invNums? inv with
  | none => simp
  | some v => rfl

theorem stepInv_tp (a : Agg) (inv : InvRecord) : (stepInv a inv).tp = a.tp + tpContrib inv := by
  unfold stepInv tpContrib
  cases h : invNums? inv with
  | none => simp
  | some v => rfl

theorem stepInv_monthly (a : Agg) (inv : InvRecord) :
    (stepInv a inv).monthly = monthlyStep a.monthly inv := by
  unfold stepInv monthlyStep
  cases h : invNums? inv with
  | none => rfl
  | some v => rfl

theorem stepInv_clientRev (a : Agg) (inv : InvRecord) :
    (stepInv a inv).clientRev = clientStep a.clientRev inv := by
  unfold stepInv clientStep
  cases h : invNums? inv with
  | none => rfl
  | some v => rfl

theorem foldl_stepInv_ti (invs : List InvRecord) :
    ∀ a : Agg, (invs.foldl stepInv a).ti = a.ti + specTotalInvoiced invs := by
  induction invs with
  | nil =>
    intro a
    simp [specTotalInvoiced]
  | cons inv invs ih =>
    intro a
    rw [List.foldl_cons, ih, stepInv_ti]
    simp only [specTotalInvoiced, List.map_cons, List.sum_cons]
    ring

theorem foldl_stepInv_tp (invs : List InvRecord) :
    ∀ a : Agg, (invs.foldl stepInv a).tp = a.tp + specTotalPaid invs := by
  induction invs with
  | nil =>
    intro a
    simp [specTotalPaid]
  | cons inv invs ih =>
    intro a
    rw [List.foldl_cons, ih, stepInv_tp]
    simp only [specTotalPaid, List.map_cons, List.sum_cons]
    ring

theorem aggregate_ti (invs : List InvRecord) :
    (aggregate invs).ti = specTotalInvoiced invs := by
  unfold aggregate
  rw [foldl_stepInv_ti]
  show 0 + _ = _
  rw [zero_add]

theorem aggregate_tp (invs : List InvRecord) :
    (aggregate invs).tp = specTotalPaid invs := by
  unfold aggregate
  rw [foldl_stepInv_tp]
  show 0 + _ = _
  rw [zero_add]

theorem mult100_tiContrib {inv : InvRecord} (h : WholeCentInvoice inv) :
    Mult100 (tiContrib inv) := by
  unfold tiContrib
  cases hv : invNums? inv with
  | none => exact mult100_zero
  | some v => exact h.1 v.1 (invNums?_total hv)

theorem mult100_tpContrib {inv : InvRecord} (h : WholeCentInvoice inv) :
    Mult100 (tpContrib inv) := by
  unfold tpContrib
  cases hv : invNums? inv with
  | none => exact mult100_zero
  | some v => exact h.2 v.2 (invNums?_paid hv)

theorem mult100_specTotalInvoiced {invs : List InvRecord}
    (h : ∀ inv ∈ invs, WholeCentInvoice inv) : Mult100 (specTotalInvoiced invs) := by
  induction invs with
  | nil => exact mult100_zero
  | cons inv invs ih =>
    simp only [specTotalInvoiced, List.map_cons, List.sum_cons]
    exact mult100_add (mult100_tiContrib (h inv (List.mem_cons_self inv invs)))
      (ih fun i hi => h i (List.mem_cons_of_mem inv hi))

theorem mult100_specTotalPaid {invs : List InvRecord}
    (h : ∀ inv ∈ invs, WholeCentInvoice inv) : Mult100 (specTotalPaid invs) := by
  induction invs with
  | nil => exact mult100_zero
  | cons inv invs ih =>
    simp only [specTotalPaid, List.map_cons, List.sum_cons]
    exact mult100_add (mult100_tpContrib (h inv (List.mem_cons_self inv invs)))
      (ih fun i hi => h i (List.mem_cons_of_mem inv hi))

/-- Claim C3 (amended): on invoice collections whose stored monetary fields
are whole-cent amounts — which is everything the service itself stores — the
rounded outputs satisfy `total_outstanding = total_invoiced - total_paid`
exactly; accumulation is at full precision with one rounding per output. -/
theorem c3_outstanding_identity (invs : List InvRecord) (cls : List ClientRecord)
    (h : ∀ inv ∈ invs, WholeCentInvoice inv) :
    (reports_summary invs cls).total_outstanding =
      (reports_summary invs cls).total_invoiced - (reports_summary invs cls).total_paid := by
  have hti : Mult100 (specTotalInvoiced invs) := mult100_specTotalInvoiced h
  have htp : Mult100 (specTotalPaid invs) := mult100_specTotalPaid h
  show round2 ((aggregate invs).ti - (aggregate invs).tp) =
    round2 (aggregate invs).ti - round2 (aggregate invs).tp
  rw [aggregate_ti, aggregate_tp, round2_eq_self hti, round2_eq_self htp,
    round2_eq_self (mult100_sub hti htp)]

theorem wholeCentInvoice_mk {inv : InvRecord} {tq pq : ℚ}
    (h₁ : inv.total = some (.num tq)) (h₂ : inv.amount_paid = some (.num pq))
    (m₁ : Mult100 tq) (m₂ : Mult100 pq) : WholeCentInvoice inv := by
  constructor <;> intro q hq
  · simp only [fieldFloat, h₁, Option.getD_some, pyFloat, Option.some.injEq] at hq
    rw [← hq]
    exact m₁
  · simp only [fieldFloat, h₂, Option.getD_some, pyFloat, Option.some.injEq] at hq
    rw [← hq]
    exact m₂

/-- Claim C3 witness: concrete scenario 3 — totals `256.00` and `100.00`,
paid `256.00` and `0`. -/
theorem c3_outstanding_identity_witness :
    (reports_summary [invA, invB] []).total_outstanding =
      (reports_summary [invA, invB] []).total_invoiced -
        (reports_summary [invA, invB] []).total_paid :=
  c3_outstanding_identity [invA, invB] []
    (by
      intro inv h
      simp only [List.mem_cons, List.not_mem_nil, or_false] at h
      rcases h with rfl | rfl
      · exact wholeCentInvoice_mk rfl rfl ⟨25600, by norm_num⟩ ⟨25600, by norm_num⟩
      · exact wholeCentInvoice_mk rfl rfl ⟨10000, by norm_num⟩ ⟨0, by norm_num⟩)

theorem rhe_three_halves : rhe (3/2) = 2 := by
  have hf : ⌊(3/2 : ℚ)⌋ = 1 := by
    rw [Int.floor_eq_iff]
    constructor <;> norm_num
  unfold rhe
  rw [hf]
  norm_num

theorem rhe_one_half : rhe (1/2) = 0 := by
  have hf : ⌊(1/2 : ℚ)⌋ = 0 := by
    rw [Int.floor_eq_iff]
    constructor <;> norm_num
  unfold rhe
  rw [hf]
  norm_num

theorem round2_three_per_two_hundred : round2 (3/200) = 1/50 := by
  unfold round2
  rw [show (3:ℚ)/200 * 100 = 3/2 by norm_num, rhe_three_halves]
  norm_num

theorem round2_one_per_two_hundred : round2 (1/200) = 0 := by
  unfold round2
  rw [show (1:ℚ)/200 * 100 = 1/2 by norm_num, rhe_one_half]
  norm_num

/-- Claim C3 counterexample: one stored invoice with sub-cent amounts
(`total = 0.015`, `amount_paid = 0.005`) makes the rounded outputs violate
`total_outstanding = total_invoiced - total_paid` (they become `0.01`, `0.02`
and `0.00` respectively, and `0.01 ≠ 0.02 - 0.00`). -/
theorem c3_cex_subcent :
    (reports_summary [subCentInvoice] []).total_outstanding ≠
      (reports_summary [subCentInvoice] []).total_invoiced -
        (reports_summary [subCentInvoice] []).total_paid := by
  have hti : (aggregate [subCentInvoice]).ti = 3/200 := by
    rw [aggregate_ti]
    norm_num [specTotalInvoiced, tiContrib, invNums?, fieldFloat, pyFloat, subCentInvoice]
  have htp : (aggregate [subCentInvoice]).tp = 1/200 := by
    rw [aggregate_tp]
    norm_num [specTotalPaid, tpContrib, invNums?, fieldFloat, pyFloat, subCentInvoice]
  show round2 ((aggregate [subCentInvoice]).ti - (aggregate [subCentInvoice]).tp) ≠
    round2 (aggregate [subCentInvoice]).ti - round2 (aggregate [subCentInvoice]).tp
  rw [hti, htp, show (3:ℚ)/200 - 1/200 = 1/100 by norm_num,
    round2_eq_self ⟨1, by norm_num⟩, round2_three_per_two_hundred,
    round2_one_per_two_hundred]
  norm_num

theorem charsLe_refl : ∀ x : List Char, charsLe x x = true := by
  intro x
  induction x with
  | nil => rfl
  | cons a as ih =>
    unfold charsLe
    rw [if_neg (lt_irrefl a.toNat), if_neg (lt_irrefl a.toNat)]
    exact ih

theorem charsLe_total : ∀ x y : List Char, charsLe x y = true ∨ charsLe y x = true := by
  intro x
  induction x with
  | nil =>
    intro y
    exact Or.inl rfl
  | cons a as ih =>
    intro y
    cases y with
    | nil => exact Or.inr rfl
    | cons b bs =>
      by_cases h₁ : a.toNat < b.toNat
      · left
        unfold charsLe
        rw [if_pos h₁]
      · by_cases h₂ : b.toNat < a.toNat
        · right
          unfold charsLe
          rw [if_pos h₂]
        · rcases ih bs with h | h
          · left
            unfold charsLe
            rw [if_neg h₁, if_neg h₂]
            exact h
          · right
            unfold charsLe
            rw [if_neg h₂, if_neg h₁]
            exact h

theorem charsLe_trans : ∀ x y z : List Char,
    charsLe x y = true → charsLe y z = true → charsLe x z = true := by
  intro x
  induction x with
  | nil =>
    intro y z _ _
    rfl
  | cons a as ih =>
    intro y z hxy hyz
    cases y with
    | nil => exact absurd hxy (by simp [charsLe])
    | cons b bs =>
      cases z with
      | nil => exact absurd hyz (by simp [charsLe])
      | cons c cs =>
        unfold charsLe at hxy hyz ⊢
        by_cases h₁ : a.toNat < b.toNat
        · by_cases h₂ : b.toNat < c.toNat
          · rw [if_pos (by omega : a.toNat < c.toNat)]
          · rw [if_neg h₂] at hyz
            by_cases h₃ : c.toNat < b.toNat
            · rw [if_pos h₃] at hyz
              exact absurd hyz (by simp)
            · rw [if_pos (by omega : a.toNat < c.toNat)]
        · rw [if_neg h₁] at hxy
          by_cases h₄ : b.toNat < a.toNat
          · rw [if_pos h₄] at hxy
            exact absurd hxy (by simp)
          · rw [if_neg h₄] at hxy
            by_cases h₂ : b.toNat < c.toNat
            · rw [if_pos (by omega : a.toNat < c.toNat)]
            · rw [if_neg h₂] at hyz
              by_cases h₃ : c.toNat < b.toNat
              · rw [if_pos h₃] at hyz
                exact absurd hyz (by simp)
              · rw [if_neg h₃] at hyz
                rw [if_neg (by omega : ¬ a.toNat < c.toNat),
                  if_neg (by omega : ¬ c.toNat < a.toNat)]
                exact ih bs cs hxy hyz

theorem filter_orderedInsert_of_neg {α : Type} (r : α → α → Prop) [DecidableRel r]
    (p : α → Bool) (a : α) (hpa : p a = false) :
    ∀ l : List α, (List.orderedInsert r a l).filter p = l.filter p := by
  intro l
  induction l with
  | nil => simp [List.orderedInsert, hpa]
  | cons b t ih =>
    by_cases hr : r a b
    · rw [List.orderedInsert_of_le r t hr, List.filter_cons_of_neg (by simp [hpa])]
    · simp only [List.orderedInsert, if_neg hr]
      by_cases hpb : p b
      · rw [List.filter_cons_of_pos hpb, List.filter_cons_of_pos hpb, ih]
      · rw [List.filter_cons_of_neg (by simpa using hpb),
          List.filter_cons_of_neg (by simpa using hpb), ih]

theorem orderedInsert_of_forall_le {α : Type} (r : α → α → Prop) [DecidableRel r] (a : α) :
    ∀ l : List α, (∀ c ∈ l, r a c) → List.orderedInsert r a l = a :: l := by
  intro l h
  cases l with
  | nil => rfl
  | cons b t => exact List.orderedInsert_of_le r t (h b (List.mem_cons_self b t))

theorem filter_orderedInsert_of_pos {α : Type} (r : α → α → Prop) [DecidableRel r]
    (p : α → Bool) (a : α) (hpa : p a = true) (hall : ∀ b, p b = true → r a b) :
    ∀ l : List α, (List.orderedInsert r a l).filter p = a :: l.filter p := by
  intro l
  induction l with
  | nil => simp [List.orderedInsert, hpa]
  | cons b t ih =>
    by_cases hr : r a b
    · rw [List.orderedInsert_of_le r t hr, List.filter_cons_of_pos hpa]
    · have hpb : p b = false := by
        cases hb : p b with
        | false => rfl
        | true => exact absurd (hall b hb) hr
      simp only [List.orderedInsert, if_neg hr]
      rw [List.filter_cons_of_neg (by simp [hpb]), ih,
        List.filter_cons_of_neg (by simp [hpb])]

/-- A stable sort leaves each equivalence class of mutually related elements
in input order: filtering by a tie class commutes away the sort. -/
theorem filter_insertionSort_tie {α : Type} (r : α → α → Prop) [DecidableRel r]
    (p : α → Bool) (htie : ∀ a b, p a = true → p b = true → r a b) :
    ∀ l : List α, (List.insertionSort r l).filter p = l.filter p := by
  intro l
  induction l with
  | nil => rfl
  | cons a t ih =>
    show (List.orderedInsert r a (List.insertionSort r t)).filter p = _
    by_cases hpa : p a
    · rw [filter_orderedInsert_of_pos r p a hpa (fun b hb => htie a b hpa hb), ih,
        List.filter_cons_of_pos hpa]
    · rw [filter_orderedInsert_of_neg r p a (by simpa using hpa), ih,
        List.filter_cons_of_neg hpa]

/-- Claim C8: every entry of `top_clients` stems from a positive accumulated
revenue whose client id is in the roster (the displayed revenue is the rounded
accumulated revenue); the list is sorted descending by (rounded) revenue; it
has at most 5 entries; and ties keep the original encounter order — filtering
the output to one revenue value yields a sublist of the candidate list, which
is in encounter order. -/
theorem c8_top_clients (invs : List InvRecord) (cls : List ClientRecord) :
    (∀ e ∈ (reports_summary invs cls).top_clients,
      (∃ rev : ℚ, 0 < rev ∧ (e.1, rev) ∈ (aggregate invs).clientRev ∧ e.2 = round2 rev) ∧
      e.1 ∈ rosterIds cls) ∧
    List.Pairwise revDesc (reports_summary invs cls).top_clients ∧
    (reports_summary invs cls).top_clients.length ≤ 5 ∧
    (∀ v : ℚ, List.Sublist
      ((reports_summary invs cls).top_clients.filter fun e => decide (e.2 = v))
      ((top_client_candidates invs cls).filter fun e => decide (e.2 = v))) := by
  have htop : (reports_summary invs cls).top_clients =
      (List.insertionSort revDesc (top_client_candidates invs cls)).take 5 := rfl
  refine ⟨?_, ?_, ?_, ?_⟩
  · intro e he
    rw [htop] at he
    have he₁ : e ∈ List.insertionSort revDesc (top_client_candidates invs cls) :=
      List.mem_of_mem_take he
    have he₂ : e ∈ top_client_candidates invs cls :=
      (List.mem_insertionSort revDesc).mp he₁
    obtain ⟨⟨cid, rev⟩, hmem, hcond⟩ := List.mem_filterMap.mp he₂
    by_cases hc : 0 < rev ∧ cid ∈ rosterIds cls
    · rw [if_pos hc] at hcond
      injection hcond with hcond
      rw [← hcond]
      exact ⟨⟨rev, hc.1, hmem, rfl⟩, hc.2⟩
    · rw [if_neg hc] at hcond
      exact Option.noConfusion hcond
  · rw [htop]
    haveI : IsTotal (PyVal × ℚ) revDesc := ⟨fun e₁ e₂ => le_total e₂.2 e₁.2⟩
    haveI : IsTrans (PyVal × ℚ) revDesc := ⟨fun _ _ _ h₁ h₂ => le_trans h₂ h₁⟩
    exact (List.sorted_insertionSort revDesc _).sublist (List.take_sublist 5 _)
  · rw [htop]
    exact List.length_take_le 5 _
  · intro v
    rw [htop]
    have hstable : ((List.insertionSort revDesc (top_client_candidates invs cls)).filter
        fun e => decide (e.2 = v)) =
        ((top_client_candidates invs cls).filter fun e => decide (e.2 = v)) :=
      filter_insertionSort_tie revDesc _
        (fun e₁ e₂ h₁ h₂ => by
          simp only [decide_eq_true_eq] at h₁ h₂
          show e₂.2 ≤ e₁.2
          rw [h₁, h₂]) _
    exact hstable ▸ ((List.take_sublist 5 _).filter _)

theorem bumpAssoc_cons_self {α : Type} [DecidableEq α] (k : α) (v v₀ : ℚ)
    (t : List (α × ℚ)) : bumpAssoc ((k, v₀) :: t) k v = (k, v₀ + v) :: t := by
  simp [bumpAssoc]

theorem bumpAssoc_cons_ne {α : Type} [DecidableEq α] {k₀ k : α} (h : k₀ ≠ k) (v v₀ : ℚ)
    (t : List (α × ℚ)) : bumpAssoc ((k₀, v₀) :: t) k v = (k₀, v₀) :: bumpAssoc t k v := by
  simp [bumpAssoc, h]

theorem mem_bumpAssoc_keys {α : Type} [DecidableEq α] (k k' : α) (v : ℚ) :
    ∀ m : List (α × ℚ),
      k' ∈ (bumpAssoc m k v).map Prod.fst ↔ (k' = k ∨ k' ∈ m.map Prod.fst) := by
  intro m
  induction m with
  | nil => simp [bumpAssoc]
  | cons e t ih =>
    obtain ⟨k₀, v₀⟩ := e
    by_cases h : k₀ = k
    · subst h
      rw [bumpAssoc_cons_self]
      simp only [List.map_cons, List.mem_cons]
      tauto
    · rw [bumpAssoc_cons_ne h]
      simp only [List.map_cons, List.mem_cons, ih]
      tauto

theorem bumpAssoc_nodup {α : Type} [DecidableEq α] (k : α) (v : ℚ) :
    ∀ m : List (α × ℚ), (m.map Prod.fst).Nodup → ((bumpAssoc m k v).map Prod.fst).Nodup := by
  intro m
  induction m with
  | nil =>
    intro _
    simp [bumpAssoc]
  | cons e t ih =>
    obtain ⟨k₀, v₀⟩ := e
    intro hnd
    simp only [List.map_cons, List.nodup_cons] at hnd
    by_cases h : k₀ = k
    · subst h
      rw [bumpAssoc_cons_self]
      simp only [List.map_cons, List.nodup_cons]
      exact hnd
    · rw [bumpAssoc_cons_ne h]
      simp only [List.map_cons, List.nodup_cons]
      refine ⟨?_, ih hnd.2⟩
      intro hc
      rcases (mem_bumpAssoc_keys k k₀ v t).mp hc with h' | h'
      · exact h h'
      · exact hnd.1 h'

theorem monthlyStep_nodup (inv : InvRecord) (m : List (String × ℚ))
    (h : (m.map Prod.fst).Nodup) : ((monthlyStep m inv).map Prod.fst).Nodup := by
  unfold monthlyStep
  cases invNums? inv with
  | none => exact h
  | some v =>
    dsimp only
    split_ifs with hd
    · exact h
    · exact bumpAssoc_nodup _ _ m h

theorem foldl_stepInv_monthly (invs : List InvRecord) :
    ∀ a : Agg, (invs.foldl stepInv a).monthly = invs.foldl monthlyStep a.monthly := by
  induction invs with
  | nil =>
    intro a
    rfl
  | cons inv invs ih =>
    intro a
    rw [List.foldl_cons, List.foldl_cons, ih, stepInv_monthly]

theorem foldl_monthlyStep_nodup (invs : List InvRecord) :
    ∀ m : List (String × ℚ), (m.map Prod.fst).Nodup →
      ((invs.foldl monthlyStep m).map Prod.fst).Nodup := by
  induction invs with
  | nil =>
    intro m h
    exact h
  | cons inv invs ih =>
    intro m h
    rw [List.foldl_cons]
    exact ih _ (monthlyStep_nodup inv m h)

theorem aggregate_monthly_nodup (invs : List InvRecord) :
    (((aggregate invs).monthly).map Prod.fst).Nodup := by
  unfold aggregate
  rw [foldl_stepInv_monthly]
  exact foldl_monthlyStep_nodup invs [] (by simp)

theorem lookupQ_bumpAssoc_self (k : String) (v : ℚ) :
    ∀ m, lookupQ (bumpAssoc m k v) k = lookupQ m k + v := by
  intro m
  induction m with
  | nil => simp [bumpAssoc, lookupQ]
  | cons e t ih =>
    obtain ⟨k₀, v₀⟩ := e
    by_cases h : k₀ = k
    · subst h
      simp [bumpAssoc, lookupQ]
    · simp [bumpAssoc, lookupQ, h, ih]

theorem lookupQ_bumpAssoc_other (k k' : String) (v : ℚ) (hne : k' ≠ k) :
    ∀ m, lookupQ (bumpAssoc m k v) k' = lookupQ m k' := by
  intro m
  induction m with
  | nil => simp [bumpAssoc, lookupQ, Ne.symm hne]
  | cons e t ih =>
    obtain ⟨k₀, v₀⟩ := e
    by_cases h : k₀ = k
    · subst h
      simp [bumpAssoc, lookupQ, Ne.symm hne]
    · simp only [bumpAssoc, if_neg h, lookupQ, ih]

theorem mem_lookupQ : ∀ {m : List (String × ℚ)} {k : String} {val : ℚ},
    (m.map Prod.fst).Nodup → (k, val) ∈ m → val = lookupQ m k := by
  intro m
  induction m with
  | nil =>
    intro k val _ h
    simp at h
  | cons e t ih =>
    intro k val hnd hmem
    obtain ⟨k₀, v₀⟩ := e
    simp only [List.map_cons, List.nodup_cons] at hnd
    rcases List.mem_cons.mp hmem with h | h
    · rw [Prod.mk.injEq] at h
      obtain ⟨h₁, h₂⟩ := h
      subst h₁
      simp only [lookupQ, if_pos rfl]
      exact h₂
    · have hk : k₀ ≠ k := by
        intro he
        subst he
        exact hnd.1 (List.mem_map_of_mem Prod.fst h)
      simp only [lookupQ, if_neg hk]
      exact ih hnd.2 h

theorem monthlyStep_lookup (inv : InvRecord) (m : List (String × ℚ)) (k : String) :
    lookupQ (monthlyStep m inv) k = lookupQ m k + monthContrib inv k := by
  unfold monthlyStep monthContrib
  cases invNums? inv with
  | none => simp
  | some v =>
    dsimp only
    by_cases hd : inv.date.getD "" = ""
    · rw [if_pos hd, if_neg (fun hc => hc.1 hd), add_zero]
    · rw [if_neg hd]
      by_cases hk : (inv.date.getD "").take 7 = k
      · subst hk
        rw [lookupQ_bumpAssoc_self, if_pos ⟨hd, rfl⟩]
      · rw [lookupQ_bumpAssoc_other _ _ _ (fun he => hk he.symm),
          if_neg (fun hc => hk hc.2), add_zero]

theorem foldl_monthlyStep_lookup (invs : List InvRecord) :
    ∀ (m : List (String × ℚ)) (k : String),
      lookupQ (invs.foldl monthlyStep m) k = lookupQ m k + specMonthTotal invs k := by
  induction invs with
  | nil =>
    intro m k
    simp [specMonthTotal]
  | cons inv invs ih =>
    intro m k
    rw [List.foldl_cons, ih, monthlyStep_lookup]
    simp only [specMonthTotal, List.map_cons, List.sum_cons]
    ring

theorem aggregate_monthly_lookup (invs : List InvRecord) (k : String) :
    lookupQ (aggregate invs).monthly k = specMonthTotal invs k := by
  unfold aggregate
  rw [foldl_stepInv_monthly]
  show lookupQ (invs.foldl monthlyStep []) k = _
  rw [foldl_monthlyStep_lookup]
  show 0 + _ = _
  rw [zero_add]

theorem filter_bumpAssoc_valid_pos (k : String) (v : ℚ) (hk : monthKeyValid k = true) :
    ∀ m : List (String × ℚ),
      (bumpAssoc m k v).filter (fun e => monthKeyValid e.1) =
        bumpAssoc (m.filter fun e => monthKeyValid e.1) k v := by
  intro m
  induction m with
  | nil => simp [bumpAssoc, hk]
  | cons e t ih =>
    obtain ⟨k₀, v₀⟩ := e
    by_cases h : k₀ = k
    · subst h
      rw [bumpAssoc_cons_self, List.filter_cons_of_pos (by simpa using hk),
        List.filter_cons_of_pos (by simpa using hk), bumpAssoc_cons_self]
    · rw [bumpAssoc_cons_ne h]
      by_cases hv₀ : monthKeyValid k₀
      · rw [List.filter_cons_of_pos (by simpa using hv₀),
          List.filter_cons_of_pos (by simpa using hv₀), ih, bumpAssoc_cons_ne h]
      · rw [List.filter_cons_of_neg (by simpa using hv₀),
          List.filter_cons_of_neg (by simpa using hv₀), ih]

theorem filter_bumpAssoc_valid_neg (k : String) (v : ℚ) (hk : monthKeyValid k = false) :
    ∀ m : List (String × ℚ),
      (bumpAssoc m k v).filter (fun e => monthKeyValid e.1) =
        m.filter (fun e => monthKeyValid e.1) := by
  intro m
  induction m with
  | nil => simp [bumpAssoc, hk]
  | cons e t ih =>
    obtain ⟨k₀, v₀⟩ := e
    by_cases h : k₀ = k
    · subst h
      rw [bumpAssoc_cons_self, List.filter_cons_of_neg (by simp [hk]),
        List.filter_cons_of_neg (by simp [hk])]
    · rw [bumpAssoc_cons_ne h]
      by_cases hv₀ : monthKeyValid k₀
      · rw [List.filter_cons_of_pos (by simpa using hv₀),
          List.filter_cons_of_pos (by simpa using hv₀), ih]
      · rw [List.filter_cons_of_neg (by simpa using hv₀),
          List.filter_cons_of_neg (by simpa using hv₀), ih]

theorem filter_monthlyStep (inv : InvRecord) (m : List (String × ℚ)) :
    (monthlyStep m inv).filter (fun e => monthKeyValid e.1) =
      monthlyStepFV (m.filter fun e => monthKeyValid e.1) inv := by
  unfold monthlyStep monthlyStepFV
  cases invNums? inv with
  | none => rfl
  | some v =>
    dsimp only
    by_cases hd : inv.date.getD "" = ""
    · rw [if_pos hd, if_pos hd]
    · rw [if_neg hd, if_neg hd]
      cases hk : monthKeyValid ((inv.date.getD "").take 7) with
      | true =>
        rw [if_pos rfl]
        exact filter_bumpAssoc_valid_pos _ _ hk m
      | false =>
        rw [if_neg (by simp)]
        exact filter_bumpAssoc_valid_neg _ _ hk m

theorem filter_foldl_monthlyStep (invs : List InvRecord) :
    ∀ m : List (String × ℚ),
      ((invs.foldl monthlyStep m).filter fun e => monthKeyValid e.1) =
        invs.foldl monthlyStepFV (m.filter fun e => monthKeyValid e.1) := by
  induction invs with
  | nil =>
    intro m
    rfl
  | cons inv invs ih =>
    intro m
    rw [List.foldl_cons, List.foldl_cons, ih, filter_monthlyStep]

theorem monthlyStepFV_skip (inv : InvRecord)
    (h : monthKeyValid ((inv.date.getD "").take 7) = false) :
    ∀ m : List (String × ℚ), monthlyStepFV m inv = m := by
  intro m
  unfold monthlyStepFV
  cases invNums? inv with
  | none => rfl
  | some v =>
    dsimp only
    by_cases hd : inv.date.getD "" = ""
    · rw [if_pos hd]
    · rw [if_neg hd, if_neg (by simp [h])]

theorem filter_orderedInsert_sorted {α : Type} (r : α → α → Prop) [DecidableRel r]
    [IsTrans α r] (p : α → Bool) (a : α) (hpa : p a = true) :
    ∀ l : List α, l.Sorted r →
      (List.orderedInsert r a l).filter p = List.orderedInsert r a (l.filter p) := by
  intro l
  induction l with
  | nil =>
    intro _
    simp [List.orderedInsert, hpa]
  | cons b t ih =>
    intro hsort
    by_cases hr : r a b
    · rw [List.orderedInsert_of_le r t hr, List.filter_cons_of_pos hpa]
      by_cases hpb : p b
      · rw [List.filter_cons_of_pos hpb, List.orderedInsert_of_le r _ hr]
      · rw [List.filter_cons_of_neg (by simpa using hpb),
          orderedInsert_of_forall_le r a _ ?_]
        intro c hc
        have hc' : c ∈ t := List.mem_of_mem_filter hc
        exact trans_of r hr (List.rel_of_sorted_cons hsort c hc')
    · simp only [List.orderedInsert, if_neg hr]
      by_cases hpb : p b
      · rw [List.filter_cons_of_pos hpb, List.filter_cons_of_pos hpb, ih hsort.of_cons]
        simp only [List.orderedInsert, if_neg hr]
      · rw [List.filter_cons_of_neg (by simpa using hpb),
          List.filter_cons_of_neg (by simpa using hpb), ih hsort.of_cons]

theorem filter_insertionSort_comm {α : Type} (r : α → α → Prop) [DecidableRel r]
    [IsTotal α r] [IsTrans α r] (p : α → Bool) :
    ∀ l : List α, (List.insertionSort r l).filter p = List.insertionSort r (l.filter p) := by
  intro l
  induction l with
  | nil => rfl
  | cons a t ih =>
    show (List.orderedInsert r a (List.insertionSort r t)).filter p = _
    by_cases hpa : p a
    · rw [filter_orderedInsert_sorted r p a hpa _ (List.sorted_insertionSort r t), ih,
        List.filter_cons_of_pos hpa]
      rfl
    · rw [filter_orderedInsert_of_neg r p a (by simpa using hpa), ih,
        List.filter_cons_of_neg hpa]

theorem filter_monthly_skip (l₁ l₂ : List InvRecord) (inv : InvRecord)
    (hinv : monthKeyValid ((inv.date.getD "").take 7) = false) :
    (((l₁ ++ inv :: l₂).foldl monthlyStep []).filter fun e => monthKeyValid e.1) =
      (((l₁ ++ l₂).foldl monthlyStep []).filter fun e => monthKeyValid e.1) := by
  rw [List.foldl_append, List.foldl_cons, List.foldl_append,
    filter_foldl_monthlyStep, filter_foldl_monthlyStep, filter_monthlyStep,
    monthlyStepFV_skip inv hinv]

theorem aggregate_monthly_eq_foldl (invs : List InvRecord) :
    (aggregate invs).monthly = invs.foldl monthlyStep [] := by
  unfold aggregate
  rw [foldl_stepInv_monthly]

theorem monthlyFull_pairwise (invs : List InvRecord) :
    List.Pairwise (fun e₁ e₂ => strLe e₁.1 e₂.1 = true ∧ e₁.1 ≠ e₂.1) (monthlyFull invs) := by
  haveI : IsTotal (String × ℚ) keyAsc := ⟨fun m₁ m₂ => charsLe_total m₁.1.data m₂.1.data⟩
  haveI : IsTrans (String × ℚ) keyAsc := ⟨fun _ _ _ h₁ h₂ => charsLe_trans _ _ _ h₁ h₂⟩
  unfold monthlyFull
  rw [List.pairwise_map]
  have hsorted : List.Pairwise keyAsc
      ((List.insertionSort keyAsc (aggregate invs).monthly).filter
        fun m => monthKeyValid m.1) :=
    (List.sorted_insertionSort keyAsc _).sublist (List.filter_sublist _)
  have hnd : ((((List.insertionSort keyAsc (aggregate invs).monthly).filter
      fun m => monthKeyValid m.1)).map Prod.fst).Nodup := by
    have h₁ : ((List.insertionSort keyAsc (aggregate invs).monthly).map Prod.fst).Nodup :=
      ((List.perm_insertionSort keyAsc _).map Prod.fst).nodup_iff.mpr
        (aggregate_monthly_nodup invs)
    exact List.Nodup.sublist ((List.filter_sublist _).map Prod.fst) h₁
  have hne : List.Pairwise (fun m₁ m₂ : String × ℚ => m₁.1 ≠ m₂.1)
      ((List.insertionSort keyAsc (aggregate invs).monthly).filter
        fun m => monthKeyValid m.1) := List.pairwise_map.mp hnd
  exact hsorted.and hne

/-- Claim C9: the monthly breakdown of `reports_summary` shows only buckets
with a well-formed `"YYYY-MM"` key, each bucket's amount is the rounded sum
of the totals of the invoices whose `date[:7]` equals its key, the list is
sorted strictly ascending by key, it is exactly the suffix of the full sorted
valid-bucket list `monthlyFull` obtained by dropping all but the last 6
entries — so it has at most 6 entries, it is the whole of `monthlyFull` when
at most 6 months are present, and every bucket of `monthlyFull` that is left
out is strictly older (smaller key) than every bucket that is shown, making
the shown buckets the most recent months present in the data — and an
invoice with a missing or malformed date is excluded from this breakdown only
— the breakdown is as if the invoice were absent, while the invoice still
contributes its coerced total to the global accumulations. -/
theorem c9_monthly_breakdown (invs : List InvRecord) (cls : List ClientRecord) :
    (∀ e ∈ (reports_summary invs cls).monthly_data,
      monthKeyValid e.1 = true ∧ e.2 = round2 (specMonthTotal invs e.1)) ∧
    List.Pairwise (fun e₁ e₂ => strLe e₁.1 e₂.1 = true ∧ e₁.1 ≠ e₂.1)
      (reports_summary invs cls).monthly_data ∧
    (reports_summary invs cls).monthly_data =
      (monthlyFull invs).drop ((monthlyFull invs).length - 6) ∧
    (reports_summary invs cls).monthly_data.length ≤ 6 ∧
    ((monthlyFull invs).length ≤ 6 →
      (reports_summary invs cls).monthly_data = monthlyFull invs) ∧
    (∀ e ∈ monthlyFull invs, e ∉ (reports_summary invs cls).monthly_data →
      ∀ e' ∈ (reports_summary invs cls).monthly_data,
        strLe e.1 e'.1 = true ∧ e.1 ≠ e'.1) ∧
    (∀ (l₁ l₂ : List InvRecord) (inv : InvRecord),
      monthKeyValid ((inv.date.getD "").take 7) = false →
      (reports_summary (l₁ ++ inv :: l₂) cls).monthly_data =
        (reports_summary (l₁ ++ l₂) cls).monthly_data ∧
      (aggregate (l₁ ++ inv :: l₂)).ti = (aggregate (l₁ ++ l₂)).ti + tiContrib inv ∧
      (aggregate (l₁ ++ inv :: l₂)).tp = (aggregate (l₁ ++ l₂)).tp + tpContrib inv) := by
  haveI : IsTotal (String × ℚ) keyAsc := ⟨fun m₁ m₂ => charsLe_total m₁.1.data m₂.1.data⟩
  haveI : IsTrans (String × ℚ) keyAsc := ⟨fun _ _ _ h₁ h₂ => charsLe_trans _ _ _ h₁ h₂⟩
  have hbridge : (reports_summary invs cls).monthly_data =
      (monthlyFull invs).drop ((monthlyFull invs).length - 6) := rfl
  refine ⟨?_, ?_, hbridge, ?_, ?_, ?_, ?_⟩
  · intro e he
    have he₁ : e ∈ ((List.insertionSort keyAsc (aggregate invs).monthly).filter
        fun m => monthKeyValid m.1).map fun m => (m.1, round2 m.2) :=
      List.mem_of_mem_drop he
    obtain ⟨m₀, hm₀, he'⟩ := List.mem_map.mp he₁
    obtain ⟨k₀, v₀⟩ := m₀
    have hm₀' := List.mem_filter.mp hm₀
    have hmem : (k₀, v₀) ∈ (aggregate invs).monthly :=
      (List.mem_insertionSort keyAsc).mp hm₀'.1
    have hval : v₀ = specMonthTotal invs k₀ := by
      rw [mem_lookupQ (aggregate_monthly_nodup invs) hmem, aggregate_monthly_lookup]
    rw [← he']
    exact ⟨by simpa using hm₀'.2, by rw [hval]⟩
  · rw [hbridge]
    exact List.Pairwise.sublist (List.drop_sublist _ _) (monthlyFull_pairwise invs)
  · rw [hbridge, List.length_drop]
    omega
  · intro hle
    rw [hbridge, show (monthlyFull invs).length - 6 = 0 from by omega, List.drop_zero]
  · rw [hbridge]
    intro e he hnot e' he'
    have hpw := monthlyFull_pairwise invs
    have hsplit : List.take ((monthlyFull invs).length - 6) (monthlyFull invs) ++
        List.drop ((monthlyFull invs).length - 6) (monthlyFull invs) = monthlyFull invs :=
      List.take_append_drop _ _
    rw [← hsplit] at hpw he
    rcases List.mem_append.mp he with h | h
    · exact (List.pairwise_append.mp hpw).2.2 e h e' he'
    · exact absurd h hnot
  · intro l₁ l₂ inv hinv
    refine ⟨?_, ?_, ?_⟩
    · have key : ((List.insertionSort keyAsc (aggregate (l₁ ++ inv :: l₂)).monthly).filter
          fun m => monthKeyValid m.1) =
          ((List.insertionSort keyAsc (aggregate (l₁ ++ l₂)).monthly).filter
          fun m => monthKeyValid m.1) := by
        rw [filter_insertionSort_comm keyAsc (fun m : String × ℚ => monthKeyValid m.1),
          filter_insertionSort_comm keyAsc (fun m : String × ℚ => monthKeyValid m.1),
          aggregate_monthly_eq_foldl, aggregate_monthly_eq_foldl,
          filter_monthly_skip l₁ l₂ inv hinv]
      have keyF : monthlyFull (l₁ ++ inv :: l₂) = monthlyFull (l₁ ++ l₂) := by
        unfold monthlyFull
        rw [key]
      have hexp : ∀ invs₀ : List InvRecord,
          (reports_summary invs₀ cls).monthly_data =
          (monthlyFull invs₀).drop ((monthlyFull invs₀).length - 6) :=
        fun _ => rfl
      rw [hexp, hexp, keyF]
    · rw [aggregate_ti, aggregate_ti]
      unfold specTotalInvoiced
      rw [List.map_append, List.map_cons, List.sum_append, List.sum_cons,
        List.map_append, List.sum_append]
      ring
    · rw [aggregate_tp, aggregate_tp]
      unfold specTotalPaid
      rw [List.map_append, List.map_cons, List.sum_append, List.sum_cons,
        List.map_append, List.sum_append]
      ring

/-- Claim C9 witness: an invoice dated `"garbage"` is dropped from the
monthly breakdown but still counted in the invoiced total; an invoice dated
`"2024-05-17"` lands in the `"2024-05"` bucket with its rounded total and,
being the only month, the breakdown is the whole of `monthlyFull`; with seven
consecutive months present, the oldest bucket `"2024-01"` is dropped and is
strictly older than the shown bucket `"2024-07"`. -/
theorem c9_monthly_breakdown_witness :
    monthKeyValid ((badDateInvoice.date.getD "").take 7) = false ∧
    (reports_summary ([] ++ badDateInvoice :: []) []).monthly_data =
      (reports_summary ([] ++ []) []).monthly_data ∧
    (aggregate ([] ++ badDateInvoice :: [])).ti =
      (aggregate ([] ++ [])).ti + tiContrib badDateInvoice ∧
    (("2024-05", round2 5) ∈ (reports_summary [datedInvoice] []).monthly_data) ∧
    monthKeyValid "2024-05" = true ∧
    round2 5 = round2 (specMonthTotal [datedInvoice] "2024-05") ∧
    (monthlyFull [datedInvoice]).length ≤ 6 ∧
    (reports_summary [datedInvoice] []).monthly_data = monthlyFull [datedInvoice] ∧
    (("2024-01", round2 1) ∈ monthlyFull sevenMonths) ∧
    (("2024-01", round2 1) ∉ (reports_summary sevenMonths []).monthly_data) ∧
    (("2024-07", round2 7) ∈ (reports_summary sevenMonths []).monthly_data) ∧
    strLe "2024-01" "2024-07" = true ∧ "2024-01" ≠ "2024-07" := by
  have h := (c9_monthly_breakdown [] []).2.2.2.2.2.2 [] [] badDateInvoice (by decide)
  have hmem : (("2024-05", round2 5)) ∈ (reports_summary [datedInvoice] []).monthly_data :=
    List.mem_singleton.mpr rfl
  have ha := (c9_monthly_breakdown [datedInvoice] []).1 _ hmem
  have hlen : (monthlyFull [datedInvoice]).length ≤ 6 := by decide
  have hall := (c9_monthly_breakdown [datedInvoice] []).2.2.2.2.1 hlen
  have hfull : (("2024-01", round2 1)) ∈ monthlyFull sevenMonths :=
    List.mem_cons_self _ _
  have hnot : (("2024-01", round2 1)) ∉ (reports_summary sevenMonths []).monthly_data := by
    intro hc
    have hc' : (("2024-01", round2 1) : String × ℚ) ∈
        [("2024-02", round2 2), ("2024-03", round2 3), ("2024-04", round2 4),
         ("2024-05", round2 5), ("2024-06", round2 6), ("2024-07", round2 7)] := hc
    simp only [List.mem_cons, List.not_mem_nil, or_false] at hc'
    rcases hc' with hc' | hc' | hc' | hc' | hc' | hc' <;>
      exact absurd (congrArg Prod.fst hc') (by decide)
  have hmem7 : (("2024-07", round2 7)) ∈ (reports_summary sevenMonths []).monthly_data := by
    show (("2024-07", round2 7) : String × ℚ) ∈
      [("2024-02", round2 2), ("2024-03", round2 3), ("2024-04", round2 4),
       ("2024-05", round2 5), ("2024-06", round2 6), ("2024-07", round2 7)]
    exact List.mem_cons_of_mem _ (List.mem_cons_of_mem _ (List.mem_cons_of_mem _
      (List.mem_cons_of_mem _ (List.mem_cons_of_mem _ (List.mem_cons_self _ _)))))
  have hold := (c9_monthly_breakdown sevenMonths []).2.2.2.2.2.1
    ("2024-01", round2 1) hfull hnot ("2024-07", round2 7) hmem7
  exact ⟨by decide, h.1, h.2.1, hmem, ha.1, ha.2, hlen, hall, hfull, hnot, hmem7,
    hold.1, hold.2⟩

/-- Claim C8 witness: one invoice of total `100` for client id `7`, with that
client in the roster, puts the client into `top_clients`; the theorem's
guarantees hold at that entry. -/
theorem c8_top_clients_witness :
    ((PyVal.num 7, round2 100) ∈
      (reports_summary [topClientInvoice] [topClient]).top_clients) ∧
    ((∃ rev : ℚ, 0 < rev ∧ ((PyVal.num 7 : PyVal), rev) ∈
        (aggregate [topClientInvoice]).clientRev ∧ round2 100 = round2 rev) ∧
      (PyVal.num 7 : PyVal) ∈ rosterIds [topClient]) := by
  have hmem : ((PyVal.num 7 : PyVal), round2 100) ∈
      (reports_summary [topClientInvoice] [topClient]).top_clients :=
    List.mem_singleton.mpr rfl
  exact ⟨hmem, (c8_top_clients [topClientInvoice] [topClient]).1 _ hmem⟩
